import Mathlib

/-!
Verification of the Black-Scholes pricing library (`black_scholes.py`) and the
implied-volatility smile / distribution extractor (`implied_vol.py`).

The Python code is shallowly embedded over `ℝ`.  `scipy.stats.norm.cdf` and
`norm.pdf` are modelled by the genuine standard normal CDF/PDF (an integral of
the Gaussian density), and `scipy.optimize.bisect` by a function that fails
(returns `none`, the NaN sentinel) exactly when the bracket condition fails.
Exceptions raised by the Python code are modelled with `Except`; `np.nan`
results with `Option`.
-/

open MeasureTheory Real Filter Set Topology intervalIntegral

noncomputable section

/-- Model of `scipy.stats.norm.pdf`: the standard normal density. -/
def normPdf (x : ℝ) : ℝ := (Real.sqrt (2 * π))⁻¹ * Real.exp (-(x ^ 2) / 2)

/-- Model of `scipy.stats.norm.cdf`: the standard normal cumulative distribution. -/
def normCdf (x : ℝ) : ℝ := ∫ t in Iic x, normPdf t


/-- Payoff-type enumeration: the recognized uppercase payoff strings of
`black_scholes.py` (module constants `FWD`, `CALL`, `PUT`, `STRADDLE`). -/
inductive Payoff
  | FWD
  | CALL
  | PUT
  | STRADDLE
  deriving DecidableEq

/-- The uppercase string constant a `Payoff` member stands for. -/
def Payoff.toString : Payoff → String
  | Payoff.FWD => "FWD"
  | Payoff.CALL => "CALL"
  | Payoff.PUT => "PUT"
  | Payoff.STRADDLE => "STRADDLE"

/-- Python's `str.upper()`, character by character. -/
def pyUpper (s : String) : String := String.mk (s.data.map Char.toUpper)

/-- Case-insensitive payoff-string recognition: each public function first
uppercases its `pt` argument (`pt = pt.upper()`) and matches it against the
module-level string constants. -/
def normalizePayoff (pt : String) : Option Payoff :=
  if pyUpper pt = "FWD" then some Payoff.FWD
  else if pyUpper pt = "CALL" then some Payoff.CALL
  else if pyUpper pt = "PUT" then some Payoff.PUT
  else if pyUpper pt = "STRADDLE" then some Payoff.STRADDLE
  else none

/-- The clamping epsilon `min_val = 0.0000000001` used by `option_price` and
`option_risk`. -/
def min_val : ℝ := 1e-10

/-- Body of `option_price` (`black_scholes.py` lines 99-124) after the
payoff-string validation: `vol` and `texp` are floored at `min_val`, FWD is
priced linearly, and CALL/PUT/STRADDLE through the Black-Scholes formula with
the put obtained from the call by parity and the straddle as call plus put. -/
def optionPriceCore (fwd vol pv strike texp : ℝ) (pt : Payoff) : ℝ :=
  let vol1 := max vol min_val
  let texp1 := max texp min_val
  let sqrtvar := vol1 * Real.sqrt texp1
  let d1 := (Real.log (fwd / strike) + 0.5 * sqrtvar ^ 2) / sqrtvar
  let d2 := d1 - sqrtvar
  let nd1 := normCdf d1
  let nd2 := normCdf d2
  let c := pv * (fwd * nd1 - strike * nd2)
  match pt with
  | Payoff.FWD => pv * (fwd - strike)
  | Payoff.CALL => c
  | Payoff.PUT => c - pv * (fwd - strike)
  | Payoff.STRADDLE => c + (c - pv * (fwd - strike))

/-- Function `option_price(fwd, vol, pv, strike, texp, pt)`: raises
`Exception('Unrecognized payoff type: ' + pt)` for a payoff string outside
`[FWD, CALL, PUT, STRADDLE]`, otherwise returns the Black-Scholes price. -/
def option_price (fwd vol pv strike texp : ℝ) (pt : String) : Except String ℝ :=
  match normalizePayoff pt with
  | some p => Except.ok (optionPriceCore fwd vol pv strike texp p)
  | none => Except.error ("Unrecognized payoff type: " ++ pyUpper pt)

/-- Function `option_price_interval(fwd, pv, strike, pt)` (`black_scholes.py` lines
11-55, scalar inputs): the no-arbitrage interval, accepting only CALL/PUT. -/
def option_price_interval (fwd pv strike : ℝ) (pt : String) :
    Except String (ℝ × ℝ) :=
  match normalizePayoff pt with
  | some Payoff.CALL => Except.ok (max (pv * fwd - pv * strike) 0, pv * fwd)
  | some Payoff.PUT => Except.ok (max (pv * strike - pv * fwd) 0, pv * strike)
  | _ => Except.error ("Unrecognized payoff type: " ++ pyUpper pt)

/-- Function `option_intrinsic_value(spot, strike, pt)` (`black_scholes.py` lines
57-82, scalar inputs): intrinsic value, accepting only CALL/PUT. -/
def option_intrinsic_value (spot strike : ℝ) (pt : String) : Except String ℝ :=
  match normalizePayoff pt with
  | some Payoff.CALL => Except.ok (max (spot - strike) 0)
  | some Payoff.PUT => Except.ok (max (strike - spot) 0)
  | _ => Except.error ("Unrecognized payoff type: " ++ pyUpper pt)

/-- Model of `scipy.optimize.bisect f lo hi`: fails (raises, here `none`)
exactly when the sign-change precondition `f(lo)·f(hi) ≤ 0` is violated,
otherwise converges to a root of `f` in `[lo, hi]`. -/
def bisect (f : ℝ → ℝ) (lo hi : ℝ) : Option ℝ :=
  if 0 < f lo * f hi then none
  else some (sInf {x | x ∈ Icc lo hi ∧ f x = 0})

/-- Function `option_vol(price, fwd, pv, strike, texp, pt, min_vol, max_vol)`
(`black_scholes.py` lines 126-152): runs `bisect` on
`target(v) = option_price(fwd, v, pv, strike, texp, pt) - price` inside a bare
`try/except` that turns every failure — a bracket failure of `bisect` and also
the unrecognized-payoff exception raised by `option_price` inside `target` —
into the returned sentinel `np.nan` (modelled as `none`). -/
def option_vol (price fwd pv strike texp : ℝ) (pt : String)
    (min_vol max_vol : ℝ) : Option ℝ :=
  match normalizePayoff pt with
  | some p =>
    bisect (fun v => optionPriceCore fwd v pv strike texp p - price) min_vol max_vol
  | none => none

/-- The result dictionary of `option_risk`, with keys Price, Delta, Gamma,
Vega. -/
structure RiskBundle where
  Price : ℝ
  Delta : ℝ
  Gamma : ℝ
  Vega : ℝ

/-- Body of `option_risk` (`black_scholes.py` lines 154-205) after the
payoff-string validation (only CALL and PUT reach it). -/
def optionRiskCore (spot vol rate strike texp : ℝ) (pt : Payoff) : RiskBundle :=
  let vol1 := max vol min_val
  let texp1 := max texp min_val
  let pv := Real.exp (-rate * texp1)
  let fwd := spot / pv
  let sqrtvar := vol1 * Real.sqrt texp1
  let d1 := (Real.log (fwd / strike) + 0.5 * sqrtvar ^ 2) / sqrtvar
  let d2 := d1 - sqrtvar
  let Nd1 := normCdf d1
  let Nd2 := normCdf d2
  let c := pv * (fwd * Nd1 - strike * Nd2)
  let nd1 := normPdf d1
  let gamma := nd1 / (spot * sqrtvar)
  let vega := spot * nd1 * Real.sqrt texp1
  match pt with
  | Payoff.CALL => ⟨c, Nd1, gamma, vega⟩
  | _ => ⟨c - pv * (fwd - strike), Nd1 - 1.0, gamma, vega⟩

/-- Function `option_risk(spot, vol, rate, strike, texp, pt)`: price and greeks,
accepting only CALL/PUT. -/
def option_risk (spot vol rate strike texp : ℝ) (pt : String) :
    Except String RiskBundle :=
  match normalizePayoff pt with
  | some Payoff.CALL => Except.ok (optionRiskCore spot vol rate strike texp Payoff.CALL)
  | some Payoff.PUT => Except.ok (optionRiskCore spot vol rate strike texp Payoff.PUT)
  | _ => Except.error ("Unrecognized payoff type: " ++ pyUpper pt)

/-- Factory `build_tanh_prop_moneyness(w, PV)` (`implied_vol.py` lines 4-30): the
TANH proportional moneyness functor. -/
def build_tanh_prop_moneyness (w PV : ℝ) : ℝ → ℝ → ℝ := fun K KRef =>
  let fwd_ref := KRef / PV
  let pm := (K - fwd_ref) / fwd_ref
  w * Real.tanh (pm / w)

/-- Factory `build_quad_prop_moneyness(PV)` (`implied_vol.py` lines 32-57): the
quadratic proportional moneyness functor. -/
def build_quad_prop_moneyness (PV : ℝ) : ℝ → ℝ → ℝ := fun K KRef =>
  let fwd_ref := KRef / PV
  let pm := (K - fwd_ref) / fwd_ref
  pm

/-- The smile model `IV_Quad_F(KRef, a, b, c, f)` (`implied_vol.py` lines
59-104): implied volatility as a quadratic of generalised moneyness. -/
structure IV_Quad_F where
  KRef : ℝ
  a : ℝ
  b : ℝ
  c : ℝ
  f : ℝ → ℝ → ℝ

/-- Accessor `IV_Quad_F.get_strike_ref`. -/
def IV_Quad_F.get_strike_ref (mo : IV_Quad_F) : ℝ := mo.KRef

/-- Method `IV_Quad_F.implied_vol(K, T) = a + b·m + 0.5·c·m²` with
`m = f(K, KRef)`; the expiry `T` is ignored by the model. -/
def IV_Quad_F.implied_vol (mo : IV_Quad_F) (K T : ℝ) : ℝ :=
  let m := mo.f K mo.KRef
  mo.a + mo.b * m + 0.5 * mo.c * m ^ 2

/-- Function `implied_distribution(strikes, T, spot, PV, IVCalc)` (`implied_vol.py`
lines 106-137), with the numpy strike array modelled as a list and the
element-wise array arithmetic as `List.map` / `List.zipWith`.  The pricing
calls use discount factor `1.0` and `fwd = spot/PV`, payoff PUT. -/
def implied_distribution (strikes : List ℝ) (T spot PV : ℝ)
    (IVCalc : IV_Quad_F) : List ℝ × List ℝ × List ℝ × List ℝ :=
  let epsilon := 0.0001 * IVCalc.get_strike_ref
  let fwd := spot / PV
  let strikes_up := strikes.map fun K => K * (1.0 + epsilon)
  let vols_up := strikes_up.map fun K => IVCalc.implied_vol K T
  let v_up := List.zipWith
    (fun vol K => optionPriceCore fwd vol 1.0 K T Payoff.PUT) vols_up strikes_up
  let vols := strikes.map fun K => IVCalc.implied_vol K T
  let v := List.zipWith
    (fun vol K => optionPriceCore fwd vol 1.0 K T Payoff.PUT) vols strikes
  let strikes_dn := strikes.map fun K => K * (1.0 - epsilon)
  let vols_dn := strikes_dn.map fun K => IVCalc.implied_vol K T
  let v_dn := List.zipWith
    (fun vol K => optionPriceCore fwd vol 1.0 K T Payoff.PUT) vols_dn strikes_dn
  let dist := List.zipWith (fun num den => num / den)
    (List.zipWith (fun x y => x - y) v_up v_dn)
    (List.zipWith (fun x y => x - y) strikes_up strikes_dn)
  let dens := List.zipWith (fun num den => num / den)
    (List.zipWith (fun x y => x + y)
      (List.zipWith (fun x y => x - 2.0 * y) v_up v) v_dn)
    (List.zipWith (fun x y => x * y)
      (List.zipWith (fun x y => x - y) strikes_up strikes)
      (List.zipWith (fun x y => x - y) strikes strikes_dn))
  (vols, v, dist, dens)

/-- The `d1` term of `option_price`, as a function of the total volatility
`s = sqrtvar`. -/
def bsD1 (fwd strike s : ℝ) : ℝ := (Real.log (fwd / strike) + 0.5 * s ^ 2) / s

/-- The `d2` term of `option_price`. -/
def bsD2 (fwd strike s : ℝ) : ℝ := bsD1 fwd strike s - s

/-- The undiscounted Black-Scholes call value `fwd·Φ(d1) − strike·Φ(d2)` as a
function of the total volatility `s`. -/
def bsCallU (fwd strike s : ℝ) : ℝ :=
  fwd * normCdf (bsD1 fwd strike s) - strike * normCdf (bsD2 fwd strike s)

lemma normPdf_pos (x : ℝ) : 0 < normPdf x :=
  mul_pos (inv_pos.2 (Real.sqrt_pos.2 (by positivity))) (Real.exp_pos _)

lemma continuous_normPdf : Continuous normPdf :=
  continuous_const.mul (Real.continuous_exp.comp ((continuous_pow 2).neg.div_const 2))

lemma integrable_normPdf : Integrable normPdf := by
  have h : Integrable fun x : ℝ => Real.exp (-(1 / 2 : ℝ) * x ^ 2) :=
    integrable_exp_neg_mul_sq (by norm_num)
  have he : normPdf = fun x : ℝ =>
      (Real.sqrt (2 * π))⁻¹ * Real.exp (-(1 / 2 : ℝ) * x ^ 2) := by
    funext x
    unfold normPdf
    congr 1
    ring_nf
  rw [he]
  exact h.const_mul _

lemma integral_normPdf : ∫ x : ℝ, normPdf x = 1 := by
  have he : normPdf = fun x : ℝ =>
      (Real.sqrt (2 * π))⁻¹ * Real.exp (-(1 / 2 : ℝ) * x ^ 2) := by
    funext x
    unfold normPdf
    congr 1
    ring_nf
  rw [he, integral_mul_left, integral_gaussian]
  have h2 : (π / (1 / 2) : ℝ) = 2 * π := by ring
  rw [h2]
  exact inv_mul_cancel₀ (Real.sqrt_pos.2 (by positivity)).ne'

lemma normCdf_sub_normCdf (a b : ℝ) :
    normCdf b - normCdf a = ∫ x in a..b, normPdf x :=
  integral_Iic_sub_Iic integrable_normPdf.integrableOn integrable_normPdf.integrableOn

lemma normCdf_eq_add_intervalIntegral (x : ℝ) :
    normCdf x = normCdf 0 + ∫ t in (0:ℝ)..x, normPdf t := by
  have h := normCdf_sub_normCdf 0 x
  linarith

lemma hasDerivAt_normCdf (x : ℝ) : HasDerivAt normCdf (normPdf x) x := by
  have h : HasStrictDerivAt (fun u => ∫ t in (0:ℝ)..u, normPdf t) (normPdf x) x :=
    continuous_normPdf.integral_hasStrictDerivAt 0 x
  have h2 : HasDerivAt (fun u => normCdf 0 + ∫ t in (0:ℝ)..u, normPdf t) (normPdf x) x :=
    (h.hasDerivAt).const_add _
  have he : normCdf = fun u => normCdf 0 + ∫ t in (0:ℝ)..u, normPdf t :=
    funext normCdf_eq_add_intervalIntegral
  rw [he]
  exact h2

lemma continuous_normCdf : Continuous normCdf :=
  continuous_iff_continuousAt.2 fun x => (hasDerivAt_normCdf x).continuousAt

lemma support_normPdf : Function.support normPdf = Set.univ :=
  Set.eq_univ_of_forall fun x => (normPdf_pos x).ne'

lemma normCdf_pos (x : ℝ) : 0 < normCdf x := by
  unfold normCdf
  rw [setIntegral_pos_iff_support_of_nonneg_ae
    (ae_of_all _ fun t => (normPdf_pos t).le) integrable_normPdf.integrableOn]
  rw [support_normPdf, Set.univ_inter, Real.volume_Iic]
  exact ENNReal.zero_lt_top

lemma normCdf_lt_one (x : ℝ) : normCdf x < 1 := by
  have hsplit : normCdf x + ∫ t in Ioi x, normPdf t = 1 := by
    unfold normCdf
    rw [integral_Iic_add_Ioi integrable_normPdf.integrableOn
      integrable_normPdf.integrableOn, integral_normPdf]
  have hpos : 0 < ∫ t in Ioi x, normPdf t := by
    rw [setIntegral_pos_iff_support_of_nonneg_ae
      (ae_of_all _ fun t => (normPdf_pos t).le) integrable_normPdf.integrableOn]
    rw [support_normPdf, Set.univ_inter, Real.volume_Ioi]
    exact ENNReal.zero_lt_top
  linarith

lemma tendsto_normCdf_atTop : Tendsto normCdf atTop (𝓝 1) := by
  have key : Tendsto (fun u => ∫ t in (0:ℝ)..u, normPdf t) atTop
      (𝓝 (∫ t in Ioi (0:ℝ), normPdf t)) :=
    intervalIntegral_tendsto_integral_Ioi 0 integrable_normPdf.integrableOn tendsto_id
  have h1 : normCdf 0 + ∫ t in Ioi (0:ℝ), normPdf t = 1 := by
    unfold normCdf
    rw [integral_Iic_add_Ioi integrable_normPdf.integrableOn
      integrable_normPdf.integrableOn, integral_normPdf]
  have h2 : Tendsto (fun u => normCdf 0 + ∫ t in (0:ℝ)..u, normPdf t) atTop
      (𝓝 (normCdf 0 + ∫ t in Ioi (0:ℝ), normPdf t)) := key.const_add _
  rw [h1] at h2
  exact h2.congr fun u => (normCdf_eq_add_intervalIntegral u).symm

lemma tendsto_normCdf_atBot : Tendsto normCdf atBot (𝓝 0) := by
  have key : Tendsto (fun u => ∫ t in u..(0:ℝ), normPdf t) atBot
      (𝓝 (∫ t in Iic (0:ℝ), normPdf t)) :=
    intervalIntegral_tendsto_integral_Iic 0 integrable_normPdf.integrableOn tendsto_id
  have h2 : Tendsto (fun u => normCdf 0 - ∫ t in u..(0:ℝ), normPdf t) atBot
      (𝓝 (normCdf 0 - ∫ t in Iic (0:ℝ), normPdf t)) := (key.const_sub _)
  have h3 : normCdf 0 - ∫ t in Iic (0:ℝ), normPdf t = 0 := by
    unfold normCdf
    ring
  rw [h3] at h2
  refine h2.congr fun u => ?_
  have h := normCdf_sub_normCdf u 0
  linarith

lemma optionPriceCore_call_eq (fwd vol pv strike texp : ℝ) :
    optionPriceCore fwd vol pv strike texp Payoff.CALL =
      pv * bsCallU fwd strike (max vol min_val * Real.sqrt (max texp min_val)) := rfl

lemma optionPriceCore_put_eq (fwd vol pv strike texp : ℝ) :
    optionPriceCore fwd vol pv strike texp Payoff.PUT =
      pv * bsCallU fwd strike (max vol min_val * Real.sqrt (max texp min_val)) -
        pv * (fwd - strike) := rfl

/-- The clamped total volatility is positive whatever `vol` and `texp` are. -/
lemma sqrtvar_pos (vol texp : ℝ) :
    0 < max vol min_val * Real.sqrt (max texp min_val) := by
  have hv : (0:ℝ) < min_val := by norm_num [min_val]
  exact mul_pos (lt_of_lt_of_le hv (le_max_right _ _))
    (Real.sqrt_pos.2 (lt_of_lt_of_le hv (le_max_right _ _)))

lemma bsD1_eq (fwd strike : ℝ) {s : ℝ} (hs : s ≠ 0) :
    bsD1 fwd strike s = Real.log (fwd / strike) * s⁻¹ + 0.5 * s := by
  field_simp [bsD1]
  ring

lemma bsD2_eq (fwd strike : ℝ) {s : ℝ} (hs : s ≠ 0) :
    bsD2 fwd strike s = Real.log (fwd / strike) * s⁻¹ - 0.5 * s := by
  rw [bsD2, bsD1_eq fwd strike hs]
  ring

lemma hasDerivAt_bsD1 (fwd strike : ℝ) {s : ℝ} (hs : 0 < s) :
    HasDerivAt (bsD1 fwd strike)
      (0.5 - Real.log (fwd / strike) / s ^ 2) s := by
  have h1 : HasDerivAt (fun u : ℝ => u⁻¹) (-(s ^ 2)⁻¹) s := hasDerivAt_inv hs.ne'
  have h2 : HasDerivAt
      (fun u : ℝ => Real.log (fwd / strike) * u⁻¹ + 0.5 * u)
      (Real.log (fwd / strike) * -(s ^ 2)⁻¹ + 0.5 * 1) s :=
    (h1.const_mul _).add ((hasDerivAt_id s).const_mul 0.5)
  have h3 := h2.congr_of_eventuallyEq
    (((eventually_ne_nhds hs.ne').mono fun u hu => bsD1_eq fwd strike hu) :
      bsD1 fwd strike =ᶠ[𝓝 s] fun u => Real.log (fwd / strike) * u⁻¹ + 0.5 * u)
  convert h3 using 1
  field_simp
  ring

lemma hasDerivAt_bsD2 (fwd strike : ℝ) {s : ℝ} (hs : 0 < s) :
    HasDerivAt (bsD2 fwd strike)
      (0.5 - Real.log (fwd / strike) / s ^ 2 - 1) s :=
  (hasDerivAt_bsD1 fwd strike hs).sub (hasDerivAt_id s)

/-- The classical identity `strike·φ(d2) = fwd·φ(d1)`. -/
lemma strike_mul_normPdf_bsD2 (fwd strike : ℝ) (hf : 0 < fwd) (hk : 0 < strike)
    {s : ℝ} (hs : s ≠ 0) :
    strike * normPdf (bsD2 fwd strike s) = fwd * normPdf (bsD1 fwd strike s) := by
  have hd1s : bsD1 fwd strike s * s = Real.log (fwd / strike) + 0.5 * s ^ 2 := by
    field_simp [bsD1]
  have harg : -(bsD2 fwd strike s ^ 2) / 2 =
      Real.log (fwd / strike) + -(bsD1 fwd strike s ^ 2) / 2 := by
    have hexp : -(bsD2 fwd strike s ^ 2) / 2 =
        -(bsD1 fwd strike s ^ 2) / 2 + bsD1 fwd strike s * s - s ^ 2 / 2 := by
      rw [bsD2]
      ring
    rw [hexp, hd1s]
    ring
  unfold normPdf
  rw [harg, Real.exp_add, Real.exp_log (div_pos hf hk)]
  field_simp
  ring

lemma hasDerivAt_bsCallU (fwd strike : ℝ) (hf : 0 < fwd) (hk : 0 < strike)
    {s : ℝ} (hs : 0 < s) :
    HasDerivAt (bsCallU fwd strike) (fwd * normPdf (bsD1 fwd strike s)) s := by
  have hd1 := hasDerivAt_bsD1 fwd strike hs
  have hd2 := hasDerivAt_bsD2 fwd strike hs
  have hc1 : HasDerivAt (fun u => normCdf (bsD1 fwd strike u))
      (normPdf (bsD1 fwd strike s) * (0.5 - Real.log (fwd / strike) / s ^ 2)) s :=
    (hasDerivAt_normCdf _).comp s hd1
  have hc2 : HasDerivAt (fun u => normCdf (bsD2 fwd strike u))
      (normPdf (bsD2 fwd strike s) *
        (0.5 - Real.log (fwd / strike) / s ^ 2 - 1)) s :=
    (hasDerivAt_normCdf _).comp s hd2
  have h := (hc1.const_mul fwd).sub (hc2.const_mul strike)
  have hid := strike_mul_normPdf_bsD2 fwd strike hf hk hs.ne'
  convert h using 1
  linear_combination ((0.5 - Real.log (fwd / strike) / s ^ 2) - 1) * hid

lemma strictMonoOn_bsCallU (fwd strike : ℝ) (hf : 0 < fwd) (hk : 0 < strike) :
    StrictMonoOn (bsCallU fwd strike) (Ioi 0) := by
  apply strictMonoOn_of_deriv_pos (convex_Ioi 0)
  · exact fun s hs =>
      (hasDerivAt_bsCallU fwd strike hf hk hs).continuousAt.continuousWithinAt
  · intro s hs
    rw [interior_Ioi] at hs
    rw [(hasDerivAt_bsCallU fwd strike hf hk hs).deriv]
    exact mul_pos hf (normPdf_pos _)

lemma tendsto_bsCallU_nhdsGT_zero (fwd strike : ℝ) (hf : 0 < fwd)
    (hk : 0 < strike) :
    Tendsto (bsCallU fwd strike) (𝓝[>] 0) (𝓝 (max (fwd - strike) 0)) := by
  have hne : ∀ᶠ s in 𝓝[>] (0:ℝ), s ≠ 0 := by
    filter_upwards [self_mem_nhdsWithin] with s hs
    exact (mem_Ioi.1 hs).ne'
  have hhalf : Tendsto (fun s : ℝ => 0.5 * s) (𝓝[>] 0) (𝓝 0) := by
    have h : Tendsto (fun s : ℝ => 0.5 * s) (𝓝 0) (𝓝 (0.5 * 0)) :=
      (continuous_const.mul continuous_id).tendsto 0
    rw [mul_zero] at h
    exact h.mono_left nhdsWithin_le_nhds
  rcases lt_trichotomy fwd strike with hlt | heq | hgt
  · have hL : Real.log (fwd / strike) < 0 :=
      Real.log_neg (div_pos hf hk) ((div_lt_one hk).2 hlt)
    have hinv : Tendsto (fun s : ℝ => Real.log (fwd / strike) * s⁻¹)
        (𝓝[>] 0) atBot := tendsto_inv_zero_atTop.const_mul_atTop_of_neg hL
    have hd1 : Tendsto (bsD1 fwd strike) (𝓝[>] 0) atBot := by
      refine Tendsto.congr' ?_ (hinv.atBot_add hhalf)
      filter_upwards [hne] with s hs
      rw [bsD1_eq fwd strike hs]
    have hd2 : Tendsto (bsD2 fwd strike) (𝓝[>] 0) atBot := by
      have hbase : Tendsto
          (fun s : ℝ => Real.log (fwd / strike) * s⁻¹ + -(0.5 * s))
          (𝓝[>] 0) atBot := hinv.atBot_add (by simpa using hhalf.neg)
      refine Tendsto.congr' ?_ hbase
      filter_upwards [hne] with s hs
      rw [bsD2_eq fwd strike hs]
      ring
    have htends := ((tendsto_normCdf_atBot.comp hd1).const_mul fwd).sub
      ((tendsto_normCdf_atBot.comp hd2).const_mul strike)
    have hmax : max (fwd - strike) 0 = 0 := max_eq_right (by linarith)
    rw [hmax]
    simpa [bsCallU, Function.comp_def] using htends
  · subst heq
    have hL : Real.log (fwd / fwd) = 0 := by
      rw [div_self hf.ne', Real.log_one]
    have hd1 : Tendsto (bsD1 fwd fwd) (𝓝[>] 0) (𝓝 0) := by
      refine Tendsto.congr' ?_ hhalf
      filter_upwards [hne] with s hs
      rw [bsD1_eq fwd fwd hs, hL]
      ring
    have hd2 : Tendsto (bsD2 fwd fwd) (𝓝[>] 0) (𝓝 0) := by
      refine Tendsto.congr' ?_ (by simpa using hhalf.neg)
      filter_upwards [hne] with s hs
      rw [bsD2_eq fwd fwd hs, hL]
      ring
    have htends := (((continuous_normCdf.tendsto 0).comp hd1).const_mul fwd).sub
      (((continuous_normCdf.tendsto 0).comp hd2).const_mul fwd)
    have hmax : max (fwd - fwd) 0 = 0 := by simp
    rw [hmax]
    have hlim : fwd * normCdf 0 - fwd * normCdf 0 = 0 := by ring
    rw [← hlim]
    simpa [bsCallU, Function.comp_def] using htends
  · have hL : 0 < Real.log (fwd / strike) :=
      Real.log_pos ((one_lt_div hk).2 hgt)
    have hinv : Tendsto (fun s : ℝ => Real.log (fwd / strike) * s⁻¹)
        (𝓝[>] 0) atTop := tendsto_inv_zero_atTop.const_mul_atTop hL
    have hd1 : Tendsto (bsD1 fwd strike) (𝓝[>] 0) atTop := by
      refine Tendsto.congr' ?_ (hinv.atTop_add hhalf)
      filter_upwards [hne] with s hs
      rw [bsD1_eq fwd strike hs]
    have hd2 : Tendsto (bsD2 fwd strike) (𝓝[>] 0) atTop := by
      have hbase : Tendsto
          (fun s : ℝ => Real.log (fwd / strike) * s⁻¹ + -(0.5 * s))
          (𝓝[>] 0) atTop := hinv.atTop_add (by simpa using hhalf.neg)
      refine Tendsto.congr' ?_ hbase
      filter_upwards [hne] with s hs
      rw [bsD2_eq fwd strike hs]
      ring
    have htends := ((tendsto_normCdf_atTop.comp hd1).const_mul fwd).sub
      ((tendsto_normCdf_atTop.comp hd2).const_mul strike)
    have hmax : max (fwd - strike) 0 = fwd - strike := max_eq_left (by linarith)
    rw [hmax]
    have hlim : fwd * 1 - strike * 1 = fwd - strike := by ring
    rw [← hlim]
    simpa [bsCallU, Function.comp_def] using htends

/-- Strict upper no-arbitrage bound of the undiscounted call value. -/
lemma bsCallU_lt (fwd strike : ℝ) (hf : 0 < fwd) (hk : 0 < strike) (s : ℝ) :
    bsCallU fwd strike s < fwd := by
  have h1 : normCdf (bsD1 fwd strike s) < 1 := normCdf_lt_one _
  have h2 : 0 < strike * normCdf (bsD2 fwd strike s) :=
    mul_pos hk (normCdf_pos _)
  have h3 : fwd * normCdf (bsD1 fwd strike s) < fwd * 1 :=
    mul_lt_mul_of_pos_left h1 hf
  unfold bsCallU
  nlinarith

/-- Strict lower no-arbitrage bound of the undiscounted call value. -/
lemma lt_bsCallU (fwd strike : ℝ) (hf : 0 < fwd) (hk : 0 < strike)
    {s : ℝ} (hs : 0 < s) :
    max (fwd - strike) 0 < bsCallU fwd strike s := by
  have hmono := strictMonoOn_bsCallU fwd strike hf hk
  have hs2 : 0 < s / 2 := half_pos hs
  have h1 : bsCallU fwd strike (s / 2) < bsCallU fwd strike s :=
    hmono (mem_Ioi.2 hs2) (mem_Ioi.2 hs) (half_lt_self hs)
  have h2 : max (fwd - strike) 0 ≤ bsCallU fwd strike (s / 2) := by
    refine le_of_tendsto (tendsto_bsCallU_nhdsGT_zero fwd strike hf hk) ?_
    filter_upwards [Ioo_mem_nhdsWithin_Ioi (left_mem_Ico.2 hs2)] with u hu
    exact (hmono (mem_Ioi.2 hu.1) (mem_Ioi.2 hs2) hu.2).le
  linarith

lemma normalizePayoff_toString (p : Payoff) :
    normalizePayoff p.toString = some p := by
  cases p <;> decide

lemma normalizePayoff_eq_some {pt : String} {p : Payoff}
    (h : normalizePayoff pt = some p) : pyUpper pt = p.toString := by
  unfold normalizePayoff at h
  split_ifs at h with h1 h2 h3 h4 <;>
    simp only [Option.some.injEq] at h <;>
    subst h <;> simp only [Payoff.toString] <;> assumption

/-- The CALL price is strictly inside the CALL no-arbitrage interval. -/
lemma optionPriceCore_call_mem_interval (fwd strike pv vol texp : ℝ)
    (hf : 0 < fwd) (hk : 0 < strike) (hpv : 0 < pv) :
    max (pv * fwd - pv * strike) 0 <
        optionPriceCore fwd vol pv strike texp Payoff.CALL ∧
      optionPriceCore fwd vol pv strike texp Payoff.CALL < pv * fwd := by
  rw [optionPriceCore_call_eq]
  set s := max vol min_val * Real.sqrt (max texp min_val) with hsdef
  have hs : 0 < s := sqrtvar_pos vol texp
  have hlow := lt_bsCallU fwd strike hf hk hs
  have hup := bsCallU_lt fwd strike hf hk s
  constructor
  · have hmax : max (pv * fwd - pv * strike) 0 = pv * max (fwd - strike) 0 := by
      rw [mul_max_of_nonneg _ _ hpv.le, mul_sub, mul_zero]
    rw [hmax]
    exact mul_lt_mul_of_pos_left hlow hpv
  · exact mul_lt_mul_of_pos_left hup hpv

/-- The PUT price is strictly inside the PUT no-arbitrage interval. -/
lemma optionPriceCore_put_mem_interval (fwd strike pv vol texp : ℝ)
    (hf : 0 < fwd) (hk : 0 < strike) (hpv : 0 < pv) :
    max (pv * strike - pv * fwd) 0 <
        optionPriceCore fwd vol pv strike texp Payoff.PUT ∧
      optionPriceCore fwd vol pv strike texp Payoff.PUT < pv * strike := by
  rw [optionPriceCore_put_eq]
  set s := max vol min_val * Real.sqrt (max texp min_val) with hsdef
  have hs : 0 < s := sqrtvar_pos vol texp
  have hlow := lt_bsCallU fwd strike hf hk hs
  have hup := bsCallU_lt fwd strike hf hk s
  have hc0 : 0 < bsCallU fwd strike s := lt_of_le_of_lt (le_max_right _ _) hlow
  have hcfk : fwd - strike < bsCallU fwd strike s :=
    lt_of_le_of_lt (le_max_left _ _) hlow
  constructor
  · apply max_lt
    · nlinarith
    · nlinarith
  · nlinarith

/-- C1.  For pt in {CALL, PUT} and valid inputs (fwd, strike, pv positive),
`option_price_interval` succeeds, `option_price` succeeds, and the price lies
inside the returned interval, whose bounds are the closed-form ones stated in
the specification. -/
theorem claim_C1 (fwd strike pv vol texp : ℝ)
    (hf : 0 < fwd) (hk : 0 < strike) (hpv : 0 < pv)
    (pt : Payoff) (hpt : pt = Payoff.CALL ∨ pt = Payoff.PUT) :
    ∃ lo hi,
      option_price_interval fwd pv strike pt.toString = Except.ok (lo, hi) ∧
      option_price fwd vol pv strike texp pt.toString =
        Except.ok (optionPriceCore fwd vol pv strike texp pt) ∧
      lo ≤ optionPriceCore fwd vol pv strike texp pt ∧
      optionPriceCore fwd vol pv strike texp pt ≤ hi ∧
      (pt = Payoff.CALL → lo = max (pv * fwd - pv * strike) 0 ∧ hi = pv * fwd) ∧
      (pt = Payoff.PUT → lo = max (pv * strike - pv * fwd) 0 ∧ hi = pv * strike) := by
  rcases hpt with hpt | hpt <;> subst hpt
  · refine ⟨max (pv * fwd - pv * strike) 0, pv * fwd, ?_, ?_, ?_, ?_, ?_, ?_⟩
    · simp [option_price_interval, normalizePayoff_toString]
    · simp [option_price, normalizePayoff_toString]
    · exact (optionPriceCore_call_mem_interval fwd strike pv vol texp hf hk hpv).1.le
    · exact (optionPriceCore_call_mem_interval fwd strike pv vol texp hf hk hpv).2.le
    · exact fun _ => ⟨rfl, rfl⟩
    · intro h
      cases h
  · refine ⟨max (pv * strike - pv * fwd) 0, pv * strike, ?_, ?_, ?_, ?_, ?_, ?_⟩
    · simp [option_price_interval, normalizePayoff_toString]
    · simp [option_price, normalizePayoff_toString]
    · exact (optionPriceCore_put_mem_interval fwd strike pv vol texp hf hk hpv).1.le
    · exact (optionPriceCore_put_mem_interval fwd strike pv vol texp hf hk hpv).2.le
    · intro h
      cases h
    · exact fun _ => ⟨rfl, rfl⟩

theorem claim_C1_witness :
    ∃ lo hi,
      option_price_interval 1 1 1 (Payoff.CALL).toString = Except.ok (lo, hi) ∧
      option_price 1 0 1 1 0 (Payoff.CALL).toString =
        Except.ok (optionPriceCore 1 0 1 1 0 Payoff.CALL) ∧
      lo ≤ optionPriceCore 1 0 1 1 0 Payoff.CALL ∧
      optionPriceCore 1 0 1 1 0 Payoff.CALL ≤ hi ∧
      (Payoff.CALL = Payoff.CALL →
        lo = max (1 * 1 - 1 * 1 : ℝ) 0 ∧ hi = (1 * 1 : ℝ)) ∧
      (Payoff.CALL = Payoff.PUT →
        lo = max (1 * 1 - 1 * 1 : ℝ) 0 ∧ hi = (1 * 1 : ℝ)) :=
  claim_C1 1 1 1 0 0 one_pos one_pos one_pos Payoff.CALL (Or.inl rfl)

/-- C2.  Put-call parity holds exactly: the PUT branch is computed from the
CALL value by subtracting `pv·(fwd − strike)`. -/
theorem claim_C2 (fwd strike pv vol texp : ℝ)
    (hf : 0 < fwd) (hk : 0 < strike) :
    optionPriceCore fwd vol pv strike texp Payoff.CALL -
        optionPriceCore fwd vol pv strike texp Payoff.PUT =
      pv * (fwd - strike) := by
  rw [optionPriceCore_call_eq, optionPriceCore_put_eq]
  ring

theorem claim_C2_witness :
    optionPriceCore 1 1 1 1 1 Payoff.CALL -
        optionPriceCore 1 1 1 1 1 Payoff.PUT = 1 * (1 - 1) :=
  claim_C2 1 1 1 1 1 one_pos one_pos

/-- C7.  The CALL and PUT prices are non-decreasing in `vol` for fixed other
inputs. -/
theorem claim_C7 (fwd strike pv texp vol1 vol2 : ℝ)
    (hf : 0 < fwd) (hk : 0 < strike) (hpv : 0 < pv) (h12 : vol1 ≤ vol2)
    (pt : Payoff) (hpt : pt = Payoff.CALL ∨ pt = Payoff.PUT) :
    optionPriceCore fwd vol1 pv strike texp pt ≤
      optionPriceCore fwd vol2 pv strike texp pt := by
  have hs1 : 0 < max vol1 min_val * Real.sqrt (max texp min_val) :=
    sqrtvar_pos vol1 texp
  have hs2 : 0 < max vol2 min_val * Real.sqrt (max texp min_val) :=
    sqrtvar_pos vol2 texp
  have hle : max vol1 min_val * Real.sqrt (max texp min_val) ≤
      max vol2 min_val * Real.sqrt (max texp min_val) :=
    mul_le_mul_of_nonneg_right (max_le_max h12 le_rfl) (Real.sqrt_nonneg _)
  have hcc : bsCallU fwd strike (max vol1 min_val * Real.sqrt (max texp min_val)) ≤
      bsCallU fwd strike (max vol2 min_val * Real.sqrt (max texp min_val)) := by
    rcases eq_or_lt_of_le hle with heq | hlt
    · rw [heq]
    · exact (strictMonoOn_bsCallU fwd strike hf hk
        (mem_Ioi.2 hs1) (mem_Ioi.2 hs2) hlt).le
  rcases hpt with hpt | hpt <;> subst hpt
  · rw [optionPriceCore_call_eq, optionPriceCore_call_eq]
    exact mul_le_mul_of_nonneg_left hcc hpv.le
  · rw [optionPriceCore_put_eq, optionPriceCore_put_eq]
    have := mul_le_mul_of_nonneg_left hcc hpv.le
    linarith

theorem claim_C7_witness :
    optionPriceCore 1 0 1 1 1 Payoff.CALL ≤ optionPriceCore 1 1 1 1 1 Payoff.CALL :=
  claim_C7 1 1 1 1 0 1 one_pos one_pos one_pos zero_le_one Payoff.CALL (Or.inl rfl)

lemma bisect_none_of_pos {f : ℝ → ℝ} {lo hi : ℝ} (h : 0 < f lo * f hi) :
    bisect f lo hi = none := by
  rw [bisect, if_pos h]

/-- C4.  Whenever `option_price_interval` succeeds with `(lo, hi)` and the
target price lies outside the open interval `(lo, hi)`, `option_vol` returns
the NaN sentinel (`none`): the clamped Black-Scholes price is strictly inside
`(lo, hi)` at every volatility, so the bisection target has the same strict
sign at both bracket ends and `scipy.optimize.bisect` raises, which the bare
`except` converts to `np.nan`. -/
theorem claim_C4 (price fwd pv strike texp : ℝ)
    (hf : 0 < fwd) (hk : 0 < strike) (hpv : 0 < pv)
    (pt : String) (lo hi : ℝ)
    (hint : option_price_interval fwd pv strike pt = Except.ok (lo, hi))
    (hout : price ≤ lo ∨ hi ≤ price) :
    option_vol price fwd pv strike texp pt 0 20 = none := by
  rcases hP : normalizePayoff pt with _ | p
  · rw [option_price_interval, hP] at hint
    cases hint
  · cases p
    · rw [option_price_interval, hP] at hint
      cases hint
    · rw [option_price_interval, hP] at hint
      rw [Except.ok.injEq, Prod.mk.injEq] at hint
      obtain ⟨hlo, hhi⟩ := hint
      rw [option_vol, hP]
      apply bisect_none_of_pos
      have h0 := optionPriceCore_call_mem_interval fwd strike pv 0 texp hf hk hpv
      have h20 := optionPriceCore_call_mem_interval fwd strike pv 20 texp hf hk hpv
      rcases hout with hout | hout
      · have ha : 0 < optionPriceCore fwd 0 pv strike texp Payoff.CALL - price := by
          rw [← hlo] at hout
          linarith [h0.1]
        have hb : 0 < optionPriceCore fwd 20 pv strike texp Payoff.CALL - price := by
          rw [← hlo] at hout
          linarith [h20.1]
        exact mul_pos ha hb
      · have ha : optionPriceCore fwd 0 pv strike texp Payoff.CALL - price < 0 := by
          rw [← hhi] at hout
          linarith [h0.2]
        have hb : optionPriceCore fwd 20 pv strike texp Payoff.CALL - price < 0 := by
          rw [← hhi] at hout
          linarith [h20.2]
        exact mul_pos_of_neg_of_neg ha hb
    · rw [option_price_interval, hP] at hint
      rw [Except.ok.injEq, Prod.mk.injEq] at hint
      obtain ⟨hlo, hhi⟩ := hint
      rw [option_vol, hP]
      apply bisect_none_of_pos
      have h0 := optionPriceCore_put_mem_interval fwd strike pv 0 texp hf hk hpv
      have h20 := optionPriceCore_put_mem_interval fwd strike pv 20 texp hf hk hpv
      rcases hout with hout | hout
      · have ha : 0 < optionPriceCore fwd 0 pv strike texp Payoff.PUT - price := by
          rw [← hlo] at hout
          linarith [h0.1]
        have hb : 0 < optionPriceCore fwd 20 pv strike texp Payoff.PUT - price := by
          rw [← hlo] at hout
          linarith [h20.1]
        exact mul_pos ha hb
      · have ha : optionPriceCore fwd 0 pv strike texp Payoff.PUT - price < 0 := by
          rw [← hhi] at hout
          linarith [h0.2]
        have hb : optionPriceCore fwd 20 pv strike texp Payoff.PUT - price < 0 := by
          rw [← hhi] at hout
          linarith [h20.2]
        exact mul_pos_of_neg_of_neg ha hb
    · rw [option_price_interval, hP] at hint
      cases hint

theorem claim_C4_witness :
    option_vol 2 1 1 1 1 "CALL" 0 20 = none := by
  refine claim_C4 2 1 1 1 1 one_pos one_pos one_pos "CALL"
    (max (1 * 1 - 1 * 1) 0) (1 * 1) ?_ ?_
  · have h : normalizePayoff "CALL" = some Payoff.CALL := by decide
    rw [option_price_interval, h]
  · right
    norm_num

/-- C5 counterexample.  `option_vol` called with an unrecognized payoff string
does not fail with the invalid-payoff error: the bare `except:` inside it
catches the exception raised by `option_price` and the call returns the NaN
sentinel (`none`) — a silently returned value, contradicting the claim that
the invalid-payoff error is always fatal for every payoff-taking function. -/
theorem counterexample_C5 :
    pyUpper "XYZ" ∉ (["FWD", "CALL", "PUT", "STRADDLE"] : List String) ∧
      option_vol 1 1 1 1 1 "XYZ" 0 20 = none := by
  constructor
  · decide
  · have h : normalizePayoff "XYZ" = none := by decide
    rw [option_vol, h]

lemma normalizePayoff_eq_none {pt : String}
    (h : pyUpper pt ∉ (["FWD", "CALL", "PUT", "STRADDLE"] : List String)) :
    normalizePayoff pt = none := by
  simp only [List.mem_cons, List.not_mem_nil, or_false, not_or] at h
  obtain ⟨h1, h2, h3, h4⟩ := h
  rw [normalizePayoff, if_neg h1, if_neg h2, if_neg h3, if_neg h4]

/-- C5 amended.  An unrecognized payoff string (after upper-casing) is a fatal
error for `option_price`, `option_price_interval`, `option_intrinsic_value`
and `option_risk` (case-insensitive match against each function's accepted
subset), but NOT for `option_vol`, whose bare `try/except` converts the
invalid-payoff exception raised inside the bisection target into the returned
NaN sentinel. -/
theorem claim_C5_amended (pt : String) (x1 x2 x3 x4 x5 lo hi : ℝ) :
    (pyUpper pt ∉ (["FWD", "CALL", "PUT", "STRADDLE"] : List String) →
      option_price x1 x2 x3 x4 x5 pt =
          Except.error ("Unrecognized payoff type: " ++ pyUpper pt) ∧
        option_vol x1 x2 x3 x4 x5 pt lo hi = none) ∧
    (pyUpper pt ∉ (["CALL", "PUT"] : List String) →
      option_price_interval x1 x3 x4 pt =
          Except.error ("Unrecognized payoff type: " ++ pyUpper pt) ∧
        option_intrinsic_value x1 x4 pt =
          Except.error ("Unrecognized payoff type: " ++ pyUpper pt) ∧
        option_risk x1 x2 x3 x4 x5 pt =
          Except.error ("Unrecognized payoff type: " ++ pyUpper pt)) := by
  constructor
  · intro h
    have hn := normalizePayoff_eq_none h
    constructor
    · rw [option_price, hn]
    · rw [option_vol, hn]
  · intro h
    simp only [List.mem_cons, List.not_mem_nil, or_false, not_or] at h
    obtain ⟨hC, hP⟩ := h
    rcases hn : normalizePayoff pt with _ | p
    · exact ⟨by rw [option_price_interval, hn], by rw [option_intrinsic_value, hn],
        by rw [option_risk, hn]⟩
    · cases p
      · exact ⟨by rw [option_price_interval, hn], by rw [option_intrinsic_value, hn],
          by rw [option_risk, hn]⟩
      · exact absurd (normalizePayoff_eq_some hn) hC
      · exact absurd (normalizePayoff_eq_some hn) hP
      · exact ⟨by rw [option_price_interval, hn], by rw [option_intrinsic_value, hn],
          by rw [option_risk, hn]⟩

theorem claim_C5_witness :
    (option_price 1 1 1 1 1 "XYZ" =
        Except.error ("Unrecognized payoff type: " ++ pyUpper "XYZ") ∧
      option_vol 1 1 1 1 1 "XYZ" 0 20 = none) ∧
    option_risk 1 1 1 1 1 "FWD" =
        Except.error ("Unrecognized payoff type: " ++ pyUpper "FWD") :=
  ⟨(claim_C5_amended "XYZ" 1 1 1 1 1 0 20).1 (by decide),
    ((claim_C5_amended "FWD" 1 1 1 1 1 0 20).2 (by decide)).2.2⟩

/-- C3 counterexample.  The moneyness transforms compare the raw strike `K`
with the forward `KRef/PV`, not with `KRef`, so `m(KRef, KRef) = PV − 1 ≠ 0`
whenever `PV ≠ 1`.  At `PV = 2 > 0`, `KRef = 1 > 0` the quadratic transform
gives `m(1, 1) = 1`, and a smile with `a = 0, b = 1, c = 0` over it has
`implied_vol(KRef, T) = 1 ≠ a`, refuting the claim for general `PV > 0`. -/
theorem counterexample_C3 :
    build_quad_prop_moneyness 2 1 1 ≠ 0 ∧
      IV_Quad_F.implied_vol ⟨1, 0, 1, 0, build_quad_prop_moneyness 2⟩ 1 0 ≠
        (⟨1, 0, 1, 0, build_quad_prop_moneyness 2⟩ : IV_Quad_F).a := by
  constructor
  · norm_num [build_quad_prop_moneyness]
  · norm_num [IV_Quad_F.implied_vol, build_quad_prop_moneyness]

/-- C3 amended.  When `PV = 1` (the only case in which the reference forward
`KRef/PV` coincides with `KRef`), both moneyness transforms vanish at
`K = KRef`, and every smile model whose transform vanishes at `K = KRef` has
`implied_vol(KRef, T) = a` exactly. -/
theorem claim_C3_amended (KRef w T av bv cv : ℝ) (hK : 0 < KRef) (hw : 0 < w) :
    build_quad_prop_moneyness 1 KRef KRef = 0 ∧
      build_tanh_prop_moneyness w 1 KRef KRef = 0 ∧
      ∀ fm : ℝ → ℝ → ℝ, fm KRef KRef = 0 →
        IV_Quad_F.implied_vol ⟨KRef, av, bv, cv, fm⟩ KRef T = av := by
  refine ⟨?_, ?_, ?_⟩
  · rw [build_quad_prop_moneyness]
    simp
  · rw [build_tanh_prop_moneyness]
    simp [Real.tanh_zero]
  · intro fm hfm
    rw [IV_Quad_F.implied_vol]
    simp only [hfm]
    ring

theorem claim_C3_witness :
    build_quad_prop_moneyness 1 1 1 = 0 ∧
      build_tanh_prop_moneyness 1 1 1 1 = 0 ∧
      ∀ fm : ℝ → ℝ → ℝ, fm 1 1 = 0 →
        IV_Quad_F.implied_vol ⟨1, 0, 0, 0, fm⟩ 1 0 = 0 :=
  claim_C3_amended 1 1 0 0 0 0 one_pos one_pos

lemma abs_tanh_lt_one (x : ℝ) : |Real.tanh x| < 1 := by
  rw [Real.tanh_eq_sinh_div_cosh, abs_div, abs_of_pos (Real.cosh_pos x),
    div_lt_one (Real.cosh_pos x)]
  have h2 : |Real.sinh x| ^ 2 < Real.cosh x ^ 2 := by
    rw [sq_abs, Real.cosh_sq]
    linarith [sq_nonneg (Real.sinh x)]
  exact lt_of_pow_lt_pow_left₀ 2 (Real.cosh_pos x).le h2

/-- C8.  The TANH moneyness transform is strictly bounded by its cutoff:
`|m(K, KRef)| < w` for every positive cutoff, discount factor, reference
strike and strike. -/
theorem claim_C8 (w PV KRef K : ℝ) (hw : 0 < w) (hPV : 0 < PV)
    (hKRef : 0 < KRef) (hK : 0 < K) :
    |build_tanh_prop_moneyness w PV K KRef| < w := by
  simp only [build_tanh_prop_moneyness]
  rw [abs_mul, abs_of_pos hw]
  exact mul_lt_of_lt_one_right hw (abs_tanh_lt_one _)

theorem claim_C8_witness : |build_tanh_prop_moneyness 1 1 1 1| < 1 :=
  claim_C8 1 1 1 1 one_pos one_pos one_pos one_pos

/-- C9.  `option_price` and `option_risk` silently floor `vol` and `texp` at
`1e-10` before any use, so a call with non-positive `vol` or `texp` equals the
call with clamped arguments, no error is raised (the model functions are
total), and the denominators and logarithm argument of the analytic formula
are positive. -/
theorem claim_C9 (fwd strike spot vol rate pv texp : ℝ)
    (hf : 0 < fwd) (hk : 0 < strike) :
    (∀ pt, optionPriceCore fwd vol pv strike texp pt =
      optionPriceCore fwd (max vol (1e-10)) pv strike (max texp (1e-10)) pt) ∧
    (∀ pt, optionRiskCore spot vol rate strike texp pt =
      optionRiskCore spot (max vol (1e-10)) rate strike (max texp (1e-10)) pt) ∧
    0 < max vol (1e-10) * Real.sqrt (max texp (1e-10)) ∧
    0 < fwd / strike := by
  have hv : max (max vol (1e-10:ℝ)) min_val = max vol min_val := by
    rw [min_val, max_assoc, max_self]
  have ht : max (max texp (1e-10:ℝ)) min_val = max texp min_val := by
    rw [min_val, max_assoc, max_self]
  refine ⟨?_, ?_, ?_, div_pos hf hk⟩
  · intro pt
    cases pt <;> simp only [optionPriceCore, hv, ht]
  · intro pt
    cases pt <;> simp only [optionRiskCore, hv, ht]
  · have h := sqrtvar_pos vol texp
    rw [min_val] at h
    exact h

theorem claim_C9_witness :
    (∀ pt, optionPriceCore 1 0 1 1 0 pt =
      optionPriceCore 1 (max 0 (1e-10)) 1 1 (max 0 (1e-10)) pt) ∧
    (∀ pt, optionRiskCore 1 0 1 1 0 pt =
      optionRiskCore 1 (max 0 (1e-10)) 1 1 (max 0 (1e-10)) pt) ∧
    0 < max (0:ℝ) (1e-10) * Real.sqrt (max 0 (1e-10)) ∧
    0 < (1:ℝ) / 1 :=
  claim_C9 1 1 1 0 1 1 0 one_pos one_pos

/-- C10.  For fixed inputs, the CALL and PUT risk bundles share Gamma and
Vega, and the two Deltas differ by exactly 1; only Price and Delta depend on
the payoff type. -/
theorem claim_C10 (spot vol rate strike texp : ℝ)
    (hs : 0 < spot) (hk : 0 < strike) :
    (optionRiskCore spot vol rate strike texp Payoff.CALL).Gamma =
        (optionRiskCore spot vol rate strike texp Payoff.PUT).Gamma ∧
      (optionRiskCore spot vol rate strike texp Payoff.CALL).Vega =
        (optionRiskCore spot vol rate strike texp Payoff.PUT).Vega ∧
      (optionRiskCore spot vol rate strike texp Payoff.PUT).Delta =
        (optionRiskCore spot vol rate strike texp Payoff.CALL).Delta - 1 := by
  refine ⟨rfl, rfl, ?_⟩
  norm_num [optionRiskCore]

theorem claim_C10_witness :
    (optionRiskCore 1 1 0 1 1 Payoff.CALL).Gamma =
        (optionRiskCore 1 1 0 1 1 Payoff.PUT).Gamma ∧
      (optionRiskCore 1 1 0 1 1 Payoff.CALL).Vega =
        (optionRiskCore 1 1 0 1 1 Payoff.PUT).Vega ∧
      (optionRiskCore 1 1 0 1 1 Payoff.PUT).Delta =
        (optionRiskCore 1 1 0 1 1 Payoff.CALL).Delta - 1 :=
  claim_C10 1 1 0 1 1 one_pos one_pos

/-- C6.  Element-wise characterization of `implied_distribution`: with
`eps = 1e-4·get_strike_ref()`, strikes are bumped to `K·(1±eps)`, every strike
is priced as a PUT by `option_price` with discount factor exactly `1.0` and
forward `spot/PV`, the returned `dist` and `dens` are the stated central
differences, the first two outputs are the unbumped implied vols and prices,
and `PV` enters only through the forward `fwd = spot/PV`. -/
theorem claim_C6 (strikes : List ℝ) (T spot PV : ℝ) (IVCalc : IV_Quad_F)
    (i : ℕ) (K : ℝ) (hK : strikes[i]? = some K) :
    let eps := 1e-4 * IVCalc.get_strike_ref
    let Kup := K * (1.0 + eps)
    let Kdn := K * (1.0 - eps)
    let P := fun J : ℝ =>
      optionPriceCore (spot / PV) (IVCalc.implied_vol J T) 1.0 J T Payoff.PUT
    (implied_distribution strikes T spot PV IVCalc).1[i]? =
        some (IVCalc.implied_vol K T) ∧
      (implied_distribution strikes T spot PV IVCalc).2.1[i]? = some (P K) ∧
      (implied_distribution strikes T spot PV IVCalc).2.2.1[i]? =
        some ((P Kup - P Kdn) / (Kup - Kdn)) ∧
      (implied_distribution strikes T spot PV IVCalc).2.2.2[i]? =
        some ((P Kup - 2.0 * P K + P Kdn) / ((Kup - K) * (K - Kdn))) ∧
      implied_distribution strikes T spot PV IVCalc =
        implied_distribution strikes T (spot / PV) 1 IVCalc := by
  intro eps Kup Kdn P
  refine ⟨?_, ?_, ?_, ?_, ?_⟩
  · simp [implied_distribution, List.getElem?_map, hK]
  · simp [implied_distribution, List.getElem?_zipWith', List.getElem?_map, hK, P]
  · simp [implied_distribution, List.getElem?_zipWith', List.getElem?_map, hK,
      P, Kup, Kdn, eps]
  · simp [implied_distribution, List.getElem?_zipWith', List.getElem?_map, hK,
      P, Kup, Kdn, eps]
  · simp [implied_distribution, div_one]

theorem claim_C6_witness :
    let eps := 1e-4 * (⟨1, 0, 0, 0, fun x y => x - y⟩ : IV_Quad_F).get_strike_ref
    let Kup := 1 * (1.0 + eps)
    let Kdn := 1 * (1.0 - eps)
    let P := fun J : ℝ =>
      optionPriceCore (1 / 1)
        ((⟨1, 0, 0, 0, fun x y => x - y⟩ : IV_Quad_F).implied_vol J 0) 1.0 J 0
        Payoff.PUT
    (implied_distribution [1] 0 1 1 ⟨1, 0, 0, 0, fun x y => x - y⟩).1[0]? =
        some ((⟨1, 0, 0, 0, fun x y => x - y⟩ : IV_Quad_F).implied_vol 1 0) ∧
      (implied_distribution [1] 0 1 1 ⟨1, 0, 0, 0, fun x y => x - y⟩).2.1[0]? =
        some (P 1) ∧
      (implied_distribution [1] 0 1 1 ⟨1, 0, 0, 0, fun x y => x - y⟩).2.2.1[0]? =
        some ((P Kup - P Kdn) / (Kup - Kdn)) ∧
      (implied_distribution [1] 0 1 1 ⟨1, 0, 0, 0, fun x y => x - y⟩).2.2.2[0]? =
        some ((P Kup - 2.0 * P 1 + P Kdn) / ((Kup - 1) * (1 - Kdn))) ∧
      implied_distribution [1] 0 1 1 ⟨1, 0, 0, 0, fun x y => x - y⟩ =
        implied_distribution [1] 0 (1 / 1) 1 ⟨1, 0, 0, 0, fun x y => x - y⟩ :=
  claim_C6 [1] 0 1 1 ⟨1, 0, 0, 0, fun x y => x - y⟩ 0 1 rfl

end
